import Mathlib

/-!
Verification of the replicated-cache core of kafka-view.

The development shallowly embeds `src/cache.rs` (wrapped keys, replica
writer, replica reader, replicated map, cache aggregate) and the
offset-lag computation of `src/web_server/api.rs`.  Byte strings are
`List Nat`, serde codecs are explicit function pairs, Rust `Result` is
`Except String`, and a Rust panic is the distinguished `Outcome.fatal`.
-/

set_option autoImplicit false

namespace KafkaView

/-- Byte strings on the replication log (`Vec<u8>` / `&[u8]`). -/
abbrev Bytes := List Nat

/-- Outcome of a fallible Rust call: `Ok`, a returned `Err`, or a panic
(`unwrap` on a failed result aborts instead of returning). -/
inductive Outcome (α : Type) where
  | ok (val : α)
  | err (msg : String)
  | fatal (msg : String)
  deriving DecidableEq

/-- A serde codec for a type: `serde_cbor::to_vec` (fallible encode) and
`serde_cbor::from_slice` (fallible decode).  The source relies on the
library instances; the embedding passes them explicitly. -/
structure Codec (α : Type) where
  enc : α → Option Bytes
  dec : Bytes → Option α

/-- `WrappedKey(String, Vec<u8>)` from `cache.rs`: the cache name paired
with the serialized user key. -/
structure WrappedKey where
  cacheName : String
  serializedKey : Bytes
  deriving DecidableEq

/-- `WrappedKey::new`: wraps the cache name with the CBOR-encoded user key.
The source calls `serde_cbor::to_vec(key).unwrap()`, so an encoding
failure is a panic (`Outcome.fatal`), not a returned error. -/
def WrappedKey.new {K : Type} (ck : Codec K) (cacheName : String) (key : K) :
    Outcome WrappedKey :=
  match ck.enc key with
  | some bytes => .ok ⟨cacheName, bytes⟩
  | none => .fatal "serde_cbor::to_vec(key) failed in WrappedKey::new"

/-- `ReplicaWriter`: the topic name, the producer behaviour
(`producer.send_copy topic payload key`), and the serde encoding of the
wrapped-key struct itself. -/
structure ReplicaWriter where
  topicName : String
  encodeWrappedKey : WrappedKey → Option Bytes
  producerSend : String → Bytes → Bytes → Except String Unit

/-- `ReplicaWriter::write_update`: serialize the wrapped key and the
value, then produce the record.  Each failure is chained with the
message used by the source. -/
def ReplicaWriter.writeUpdate {K V : Type} (w : ReplicaWriter)
    (ck : Codec K) (cv : Codec V) (name : String) (key : K) (value : V) :
    Outcome Unit :=
  match WrappedKey.new ck name key with
  | .fatal s => .fatal s
  | .err s => .err s
  | .ok wk =>
    match w.encodeWrappedKey wk with
    | none => .err "Failed to serialize key"
    | some serializedKey =>
      match cv.enc value with
      | none => .err "Failed to serialize value"
      | some serializedValue =>
        match w.producerSend w.topicName serializedValue serializedKey with
        | .error e => .err ("Failed to produce message: " ++ e)
        | .ok _ => .ok ()

/-- `ReplicaCacheUpdate` from `cache.rs`: a `Set` with raw key and payload
bytes, or a `Delete` with raw key bytes. -/
inductive ReplicaCacheUpdate where
  | set (key : Bytes) (payload : Bytes)
  | delete (key : Bytes)
  deriving DecidableEq

/-- `HashMap::insert` on the association-list model: update the value of
the first (unique) entry for the key, or append a fresh entry. -/
def hmInsert {K V : Type} [DecidableEq K] : List (K × V) → K → V → List (K × V)
  | [], k, v => [(k, v)]
  | (a, b) :: t, k, v => if a = k then (a, v) :: t else (a, b) :: hmInsert t k v

/-- `HashMap::get` on the association-list model. -/
def hmLookup {K V : Type} [DecidableEq K] : List (K × V) → K → Option V
  | [], _ => none
  | (a, b) :: t, k => if a = k then some b else hmLookup t k

/-- Keys of the association-list model of a hash map. -/
def hmKeys {K V : Type} (l : List (K × V)) : List K :=
  l.map (fun p => p.1)

/-- `ReplicatedMap<K, V>`: name, shared mapping, shared writer.  The serde
dictionaries of `K` and `V` are carried alongside. -/
structure ReplicatedMap (K V : Type) where
  name : String
  map : List (K × V)
  replicaWriter : ReplicaWriter
  keyCodec : Codec K
  valueCodec : Codec V

namespace ReplicatedMap

variable {K V : Type}

/-- `ReplicatedMap::new`: a named empty map sharing the given writer. -/
def new (name : String) (replicaWriter : ReplicaWriter)
    (keyCodec : Codec K) (valueCodec : Codec V) : ReplicatedMap K V :=
  ⟨name, [], replicaWriter, keyCodec, valueCodec⟩

/-- `ReplicatedMap::alias`: another handle to the same name, mapping and
writer (the source clones the `Arc`s; state is shared). -/
def aliasHandle (m : ReplicatedMap K V) : ReplicatedMap K V :=
  { name := m.name, map := m.map, replicaWriter := m.replicaWriter,
    keyCodec := m.keyCodec, valueCodec := m.valueCodec }

/-- `ReplicatedMap::sync_value_update`: apply `map[key] := value` locally. -/
def syncValueUpdate [DecidableEq K] (m : ReplicatedMap K V) (key : K) (value : V) :
    ReplicatedMap K V :=
  { m with map := hmInsert m.map key value }

/-- `ReplicatedMap::receive_update`: decode and apply a `Set`; fail on a
`Delete` (`bail!("Delete not implemented")`). -/
def receiveUpdate [DecidableEq K] (m : ReplicatedMap K V)
    (update : ReplicaCacheUpdate) : Except String Unit × ReplicatedMap K V :=
  match update with
  | .set key payload =>
    match m.keyCodec.dec key with
    | none => (.error "Failed to parse key", m)
    | some k =>
      match m.valueCodec.dec payload with
      | none => (.error "Failed to parse payload", m)
      | some v => (.ok (), m.syncValueUpdate k v)
  | .delete _ => (.error "Delete not implemented", m)

/-- `ReplicatedMap::insert`: publish through the writer first; only on
success apply the update locally. -/
def insert [DecidableEq K] (m : ReplicatedMap K V) (key : K) (value : V) :
    Outcome Unit × ReplicatedMap K V :=
  match m.replicaWriter.writeUpdate m.keyCodec m.valueCodec m.name key value with
  | .fatal s => (.fatal s, m)
  | .err s => (.err ("Failed to write cache update: " ++ s), m)
  | .ok _ => (.ok (), m.syncValueUpdate key value)

/-- `ReplicatedMap::get`: clone of the current value for the key. -/
def get [DecidableEq K] (m : ReplicatedMap K V) (key : K) : Option V :=
  hmLookup m.map key

end ReplicatedMap

/-- One item of the replica reader's stream: a well-formed record (with
its optional raw key and optional payload), the end-of-partition marker
`KafkaError::PartitionEOF(p)`, another Kafka-level error, or a stream
receive error. -/
inductive StreamEvent where
  | record (key : Option Bytes) (payload : Option Bytes)
  | partitionEOF (p : Int)
  | kafkaError
  | recvError
  deriving DecidableEq

/-- `parse_message_key`: fail on an absent key, otherwise decode the
wrapped key from the raw bytes (both failures are logged and skipped by
the caller, so `Option` suffices). -/
def parseMessageKey (decodeKey : Bytes → Option WrappedKey)
    (key : Option Bytes) : Option WrappedKey :=
  match key with
  | none => none
  | some kb => decodeKey kb

/-- `HashSet::insert` on the list model: add the partition id unless it
is already present. -/
def setInsert (s : List Int) (p : Int) : List Int :=
  if p ∈ s then s else s ++ [p]

/-- One iteration of the `last_message_per_key` loop body: a record is
parsed and stored (last write per wrapped key), an EOF marker extends
the EOF set, and errors are logged and skipped. -/
def processEvent (decodeKey : Bytes → Option WrappedKey)
    (eofSet : List Int) (state : List (WrappedKey × Option Bytes)) :
    StreamEvent → List Int × List (WrappedKey × Option Bytes)
  | .record key payload =>
    match parseMessageKey decodeKey key with
    | some wk => (eofSet, hmInsert state wk payload)
    | none => (eofSet, state)
  | .partitionEOF p => (setInsert eofSet p, state)
  | .kafkaError => (eofSet, state)
  | .recvError => (eofSet, state)

/-- Result of the consuming loop of `last_message_per_key`: the EOF set,
the per-key state, how many stream items were consumed, and whether the
loop stopped through its break (EOF-set size reached the partition
count) rather than by exhausting the stream. -/
structure BootstrapResult where
  eofSet : List Int
  state : List (WrappedKey × Option Bytes)
  consumed : Nat
  broke : Bool
  deriving DecidableEq

/-- The consuming loop of `last_message_per_key`: process each stream
item in order and break as soon as the EOF set has as many elements as
the topic has partitions. -/
def consumeLoop (decodeKey : Bytes → Option WrappedKey) (numPartitions : Nat)
    (eofSet : List Int) (state : List (WrappedKey × Option Bytes))
    (consumed : Nat) : List StreamEvent → BootstrapResult
  | [] => ⟨eofSet, state, consumed, false⟩
  | e :: rest =>
    let es := processEvent decodeKey eofSet state e
    if es.1.length = numPartitions then ⟨es.1, es.2, consumed + 1, true⟩
    else consumeLoop decodeKey numPartitions es.1 es.2 (consumed + 1) rest

/-- `ReplicaReader::last_message_per_key`: with no topic metadata the
state is empty (warn and return); otherwise run the consuming loop from
empty EOF set and state. -/
def lastMessagePerKey (decodeKey : Bytes → Option WrappedKey)
    (partitions : Option (List Int)) (events : List StreamEvent) :
    List (WrappedKey × Option Bytes) :=
  match partitions with
  | none => []
  | some ps => (consumeLoop decodeKey ps.length [] [] 0 events).state

/-- The update `load_state` builds for one state entry: `Set` when the
payload is present, `Delete` when it is absent. -/
def mkUpdate (wk : WrappedKey) (payload : Option Bytes) : ReplicaCacheUpdate :=
  match payload with
  | some p => .set wk.serializedKey p
  | none => .delete wk.serializedKey

/-- `ReplicaReader::load_state`: the sequence of
`receiver.receive_update(cache_name, update)` invocations, one per entry
of the state built by `last_message_per_key`. -/
def loadState (decodeKey : Bytes → Option WrappedKey)
    (partitions : Option (List Int)) (events : List StreamEvent) :
    List (String × ReplicaCacheUpdate) :=
  (lastMessagePerKey decodeKey partitions events).map
    (fun entry => (entry.1.cacheName, mkUpdate entry.1 entry.2))

/-- Value carried by the last entry for a key in a record list. -/
def lastVal {K V : Type} [DecidableEq K] : List (K × V) → K → Option V
  | [], _ => none
  | (a, v) :: t, k =>
    match lastVal t k with
    | some u => some u
    | none => if a = k then some v else none

/-- Raw key bytes carried by a cache update. -/
def updKeyBytes : ReplicaCacheUpdate → Bytes
  | .set sk _ => sk
  | .delete sk => sk

/-- The updates among a `load_state` emission sequence that address the
given wrapped key (same cache name, same serialized user key). -/
def updatesFor (emissions : List (String × ReplicaCacheUpdate))
    (wk : WrappedKey) : List ReplicaCacheUpdate :=
  emissions.filterMap (fun e =>
    if e.1 = wk.cacheName ∧ updKeyBytes e.2 = wk.serializedKey
    then some e.2 else none)

/-- How one stream item changes the EOF set. -/
def eofStep (s : List Int) : StreamEvent → List Int
  | .partitionEOF p => setInsert s p
  | _ => s

/-- EOF set accumulated over a sequence of stream items, starting from
`s`. -/
def eofFoldFrom (s : List Int) (events : List StreamEvent) : List Int :=
  events.foldl eofStep s

/-- EOF set accumulated over a sequence of stream items. -/
def eofIds (events : List StreamEvent) : List Int :=
  eofFoldFrom [] events

/-- Modelled from the spec: the cluster identifier of the missing
`metadata` module, a string id. -/
abbrev ClusterId := String

/-- Modelled from the spec: the broker id of the missing `metadata`
module, an integer id. -/
abbrev BrokerId := Int

/-- Modelled from the spec: the topic name of the missing `metadata`
module. -/
abbrev TopicName := String

/-- Modelled from the spec: a broker record `{id, hostname}` of the
missing `metadata` module. -/
structure Broker where
  id : Int
  hostname : String
  deriving DecidableEq

/-- Modelled from the spec: a partition record
`{id, leader, replicas, isr, error?}` of the missing `metadata` module. -/
structure Partition where
  id : Int
  leader : Int
  replicas : List Int
  isr : List Int
  error : Option String
  deriving DecidableEq

/-- Modelled from the spec: a consumer-group member record of the missing
`metadata` module. -/
structure GroupMember where
  id : String
  clientId : String
  clientHost : String
  deriving DecidableEq

/-- Modelled from the spec: a consumer-group record
`{name, state, members}` of the missing `metadata` module. -/
structure Group where
  name : String
  state : String
  members : List GroupMember
  deriving DecidableEq

/-- Modelled from the spec: the broker metrics record of the missing
`metrics` module, a topic-name to rate-pair mapping (rates are modelled
as integers; no claim depends on their arithmetic). -/
structure BrokerMetrics where
  topics : List (String × Int × Int)
  deriving DecidableEq

/-- `Cache`: the aggregate of the five named replicated maps. -/
structure Cache where
  metrics : ReplicatedMap (ClusterId × BrokerId) BrokerMetrics
  offsets : ReplicatedMap (ClusterId × String × TopicName) (List Int)
  brokers : ReplicatedMap ClusterId (List Broker)
  topics : ReplicatedMap (ClusterId × TopicName) (List Partition)
  groups : ReplicatedMap (ClusterId × String) Group

/-- `Cache::new`: the five maps with their literal names, all sharing one
writer (the serde dictionaries are passed alongside). -/
def Cache.new (replicaWriter : ReplicaWriter)
    (ckMetrics : Codec (ClusterId × BrokerId)) (cvMetrics : Codec BrokerMetrics)
    (ckOffsets : Codec (ClusterId × String × TopicName)) (cvOffsets : Codec (List Int))
    (ckBrokers : Codec ClusterId) (cvBrokers : Codec (List Broker))
    (ckTopics : Codec (ClusterId × TopicName)) (cvTopics : Codec (List Partition))
    (ckGroups : Codec (ClusterId × String)) (cvGroups : Codec Group) : Cache :=
  { metrics := ReplicatedMap.new "metrics" replicaWriter ckMetrics cvMetrics,
    offsets := ReplicatedMap.new "offsets" replicaWriter ckOffsets cvOffsets,
    brokers := ReplicatedMap.new "brokers" replicaWriter ckBrokers cvBrokers,
    topics := ReplicatedMap.new "topics" replicaWriter ckTopics cvTopics,
    groups := ReplicatedMap.new "groups" replicaWriter ckGroups cvGroups }

/-- `Cache::alias`: an aggregate of aliased maps. -/
def Cache.aliasHandle (c : Cache) : Cache :=
  { metrics := c.metrics.aliasHandle, offsets := c.offsets.aliasHandle,
    brokers := c.brokers.aliasHandle, topics := c.topics.aliasHandle,
    groups := c.groups.aliasHandle }

/-- `impl UpdateReceiver for Cache`: dispatch on the literal cache name;
the selected map's own result is discarded (`match ...;` then `Ok(())`),
and an unknown name bails. -/
def Cache.receiveUpdate (c : Cache) (cacheName : String)
    (update : ReplicaCacheUpdate) : Except String Unit × Cache :=
  if cacheName = "metrics" then
    (.ok (), { c with metrics := (c.metrics.receiveUpdate update).2 })
  else if cacheName = "offsets" then
    (.ok (), { c with offsets := (c.offsets.receiveUpdate update).2 })
  else if cacheName = "brokers" then
    (.ok (), { c with brokers := (c.brokers.receiveUpdate update).2 })
  else if cacheName = "topics" then
    (.ok (), { c with topics := (c.topics.receiveUpdate update).2 })
  else if cacheName = "groups" then
    (.ok (), { c with groups := (c.groups.receiveUpdate update).2 })
  else
    (.error ("Unknown cache name: " ++ cacheName), c)

/-- One row of the `group_offsets` lag view, from the watermark query
result for the row's `(topic, partition)` and the committed offset:
`(low, high, lag_shown)` as computed in `api.rs`. -/
def lagRow (wmEntry : Option (Except String (Int × Int))) (offset : Int) :
    Int × Int × String :=
  let lhl : Int × Int × Int :=
    match wmEntry with
    | some (.ok lh) => (lh.1, lh.2, lh.2 - offset)
    | _ => (-1, -1, -1)
  let lagShown : String :=
    if lhl.2.1 = 0 then "Empty topic"
    else if offset - lhl.1 < 0 then "Out of retention"
    else toString lhl.2.2
  (lhl.1, lhl.2.1, lagShown)

/-- `fetch_watermarks`: one watermark query per `(topic, partition)` pair
of the offset entries, each wrapped so that a query failure does not fail
the aggregate. -/
def fetchWatermarks (fetch : TopicName → Int → Except String (Int × Int))
    (offsets : List ((ClusterId × String × TopicName) × List Int)) :
    List ((TopicName × Int) × Except String (Int × Int)) :=
  (offsets.map (fun entry =>
    (List.range entry.2.length).map (fun pid =>
      ((entry.1.2.2, (pid : Int)), fetch entry.1.2.2 (pid : Int))))).flatten

/-- The row list built by `group_offsets` from the watermark mapping and
the offset entries: for each entry and partition index,
`(topic, partition, low, high, offset, lag_shown)`. -/
def groupOffsetsRows (wms : List ((TopicName × Int) × Except String (Int × Int)))
    (offsets : List ((ClusterId × String × TopicName) × List Int)) :
    List (TopicName × Nat × Int × Int × Int × String) :=
  (offsets.map (fun entry =>
    entry.2.enum.map (fun pe =>
      let row := lagRow (hmLookup wms (entry.1.2.2, (pe.1 : Int))) pe.2
      (entry.1.2.2, pe.1, row.1, row.2.1, pe.2, row.2.2)))).flatten

/-- The `group_offsets` endpoint body: no registered consumer means the
watermark fanout fails and the endpoint answers with an empty payload;
otherwise the rows are built from the fanout's results. -/
def groupOffsets (consumer : Option (TopicName → Int → Except String (Int × Int)))
    (offsets : List ((ClusterId × String × TopicName) × List Int)) :
    List (TopicName × Nat × Int × Int × Int × String) :=
  match consumer with
  | none => []
  | some fetch => groupOffsetsRows (fetchWatermarks fetch offsets) offsets

/-- Codec used by concrete instances: a `Nat` is encoded as the singleton
byte string containing it. -/
def natCodec : Codec Nat :=
  ⟨fun n => some [n], fun b => match b with | [n] => some n | _ => none⟩

/-- A codec that fails to encode and to decode everything. -/
def trivCodec (α : Type) : Codec α :=
  ⟨fun _ => none, fun _ => none⟩

/-- A writer whose producer accepts every record. -/
def okWriter : ReplicaWriter :=
  ⟨"replicator_topic", fun wk => some (wk.cacheName.length :: wk.serializedKey),
   fun _ _ _ => .ok ()⟩

/-- A writer whose producer rejects every record. -/
def failWriter : ReplicaWriter :=
  ⟨"replicator_topic", fun wk => some (wk.cacheName.length :: wk.serializedKey),
   fun _ _ _ => .error "send failed"⟩

/-- A concrete metrics-named map over the `Nat` codec and the accepting
writer. -/
def m0 : ReplicatedMap Nat Nat :=
  ReplicatedMap.new "metrics" okWriter natCodec natCodec

/-- A concrete map whose writer always fails to produce. -/
def mFail : ReplicatedMap Nat Nat :=
  ReplicatedMap.new "metrics" failWriter natCodec natCodec

/-- A key codec whose encoder fails on every key (a user key that CBOR
cannot encode). -/
def badKeyCodec : Codec Nat :=
  ⟨fun _ => none, fun _ => none⟩

/-- A concrete map whose key encoding fails. -/
def mBad : ReplicatedMap Nat Nat :=
  ReplicatedMap.new "metrics" okWriter badKeyCodec natCodec

/-- A wrapped-key decoder that reads every byte string as a metrics key. -/
def decMetrics : Bytes → Option WrappedKey :=
  fun b => some ⟨"metrics", b⟩

/-- A concrete aggregate over trivial codecs and the accepting writer. -/
def c0 : Cache :=
  Cache.new okWriter (trivCodec _) (trivCodec _) (trivCodec _) (trivCodec _)
    (trivCodec _) (trivCodec _) (trivCodec _) (trivCodec _) (trivCodec _) (trivCodec _)

/-- Concrete record list for the bootstrap witnesses: two records for one
key followed by one for another. -/
def recsC : List (WrappedKey × Option Bytes) :=
  [(⟨"metrics", [1]⟩, some [9]), (⟨"metrics", [1]⟩, some [8]),
   (⟨"metrics", [2]⟩, some [7])]

/-- Concrete raw-key encoding for the bootstrap witnesses. -/
def kbC : WrappedKey → Bytes :=
  fun wk => wk.serializedKey

/-- The offsets-cache content of scenario S4. -/
def s4Offsets : List ((ClusterId × String × TopicName) × List Int) :=
  [(("c1", "g1", "t1"), [100, 200])]

/-- The watermark behaviour of scenario S4: partition 0 answers
`Ok((10, 150))`, every other partition fails. -/
def s4Fetch : TopicName → Int → Except String (Int × Int) :=
  fun _ p => if p = 0 then .ok (10, 150) else .error "fetch failed"

section HashMapLemmas

variable {K V : Type} [DecidableEq K]

theorem hmLookup_hmInsert (l : List (K × V)) (a k : K) (v : V) :
    hmLookup (hmInsert l a v) k = if a = k then some v else hmLookup l k := by
  induction l with
  | nil =>
    by_cases h : a = k <;> simp [hmInsert, hmLookup, h]
  | cons p t ih =>
    obtain ⟨x, y⟩ := p
    by_cases hxa : x = a
    · subst hxa
      by_cases hxk : x = k <;> simp [hmInsert, hmLookup, hxk]
    · by_cases hxk : x = k
      · subst hxk
        have hak : ¬ a = x := fun h => hxa h.symm
        simp [hmInsert, hmLookup, hxa, hak]
      · simp [hmInsert, hmLookup, hxa, hxk, ih]

theorem hmInsert_idem (l : List (K × V)) (k : K) (v : V) :
    hmInsert (hmInsert l k v) k v = hmInsert l k v := by
  induction l with
  | nil => simp [hmInsert]
  | cons p t ih =>
    obtain ⟨x, y⟩ := p
    by_cases hxk : x = k <;> simp [hmInsert, hxk, ih]

theorem mem_hmKeys_hmInsert (l : List (K × V)) (a k : K) (v : V) :
    k ∈ hmKeys (hmInsert l a v) ↔ k = a ∨ k ∈ hmKeys l := by
  induction l with
  | nil => simp [hmInsert, hmKeys]
  | cons p t ih =>
    obtain ⟨x, y⟩ := p
    have hcons : hmInsert ((x, y) :: t) a v
        = if x = a then (x, v) :: t else (x, y) :: hmInsert t a v := rfl
    by_cases hxa : x = a
    · rw [hcons, if_pos hxa]
      subst hxa
      simp only [hmKeys, List.map_cons, List.mem_cons]
      tauto
    · rw [hcons, if_neg hxa]
      simp only [hmKeys, List.map_cons, List.mem_cons] at ih ⊢
      rw [ih]
      tauto

theorem hmKeys_nodup_hmInsert (l : List (K × V)) (k : K) (v : V)
    (h : (hmKeys l).Nodup) : (hmKeys (hmInsert l k v)).Nodup := by
  induction l with
  | nil => simp [hmInsert, hmKeys]
  | cons p t ih =>
    obtain ⟨x, y⟩ := p
    simp only [hmKeys, List.map_cons, List.nodup_cons] at h
    by_cases hxk : x = k
    · simpa [hmInsert, hmKeys, hxk] using h
    · have ht := ih h.2
      simp only [hmInsert, hxk, if_false, hmKeys, List.map_cons, List.nodup_cons]
      refine ⟨?_, ht⟩
      intro hx
      rcases (mem_hmKeys_hmInsert t k x v).1 hx with hxeq | hxmem
      · exact hxk hxeq
      · exact h.1 hxmem

theorem hmLookup_foldl_hmInsert (recs : List (K × V)) (st : List (K × V)) (k : K) :
    hmLookup (recs.foldl (fun s r => hmInsert s r.1 r.2) st) k
      = match lastVal recs k with
        | some v => some v
        | none => hmLookup st k := by
  induction recs generalizing st with
  | nil => rfl
  | cons r t ih =>
    obtain ⟨a, v⟩ := r
    simp only [List.foldl_cons, lastVal]
    rw [ih]
    rcases lastVal t k with _ | u
    · simp only [hmLookup_hmInsert]
      by_cases hak : a = k <;> simp [hak]
    · rfl

theorem hmKeys_nodup_foldl_hmInsert (recs : List (K × V)) (st : List (K × V))
    (h : (hmKeys st).Nodup) :
    (hmKeys (recs.foldl (fun s r => hmInsert s r.1 r.2) st)).Nodup := by
  induction recs generalizing st with
  | nil => exact h
  | cons r t ih =>
    exact ih (hmInsert st r.1 r.2) (hmKeys_nodup_hmInsert st r.1 r.2 h)

end HashMapLemmas

/-- C1: after a successful `insert(k, v)` on a `ReplicatedMap` handle,
`get(k)` returns `Some(v)` on that handle and on the handle obtained via
`alias()`, without any log round-trip; and re-applying the same update
through `receive_update` (the log round-trip of the record that `insert`
published) succeeds and leaves the map unchanged. -/
theorem c1_insert_write_through_visibility {K V : Type} [DecidableEq K]
    (m : ReplicatedMap K V) (k : K) (v : V) (bk bv : Bytes)
    (hok : (m.insert k v).1 = .ok ())
    (hek : m.keyCodec.enc k = some bk) (hdk : m.keyCodec.dec bk = some k)
    (hev : m.valueCodec.enc v = some bv) (hdv : m.valueCodec.dec bv = some v) :
    ((m.insert k v).2).get k = some v
    ∧ ((m.insert k v).2).aliasHandle.get k = some v
    ∧ ((m.insert k v).2).receiveUpdate (.set bk bv) = (.ok (), (m.insert k v).2) := by
  have hw : m.insert k v = (.ok (), m.syncValueUpdate k v) := by
    unfold ReplicatedMap.insert at hok ⊢
    rcases hres : m.replicaWriter.writeUpdate m.keyCodec m.valueCodec m.name k v with
      val | s | s <;> simp [hres] at hok ⊢
  rw [hw]
  have hget : (m.syncValueUpdate k v).get k = some v := by
    simp [ReplicatedMap.get, ReplicatedMap.syncValueUpdate, hmLookup_hmInsert]
  refine ⟨hget, hget, ?_⟩
  simp only [ReplicatedMap.receiveUpdate, ReplicatedMap.syncValueUpdate, hdk, hdv]
  simp [hmInsert_idem]

theorem c1_insert_write_through_visibility_witness :
    (m0.insert 5 7).1 = .ok ()
    ∧ ((m0.insert 5 7).2).get 5 = some 7
    ∧ ((m0.insert 5 7).2).aliasHandle.get 5 = some 7
    ∧ ((m0.insert 5 7).2).receiveUpdate (.set [5] [7]) = (.ok (), (m0.insert 5 7).2) :=
  ⟨rfl, c1_insert_write_through_visibility m0 5 7 [5] [7] rfl rfl rfl rfl rfl⟩

/-- C2: if the producer rejects the publish step of `insert(k, v)`, then
`insert` returns the chained produce error and the local map is
untouched: every key reads exactly as before the call. -/
theorem c2_insert_error_atomicity {K V : Type} [DecidableEq K]
    (m : ReplicatedMap K V) (k : K) (v : V) (bk wkb bv : Bytes) (e : String)
    (hek : m.keyCodec.enc k = some bk)
    (hwk : m.replicaWriter.encodeWrappedKey ⟨m.name, bk⟩ = some wkb)
    (hev : m.valueCodec.enc v = some bv)
    (hpub : m.replicaWriter.producerSend m.replicaWriter.topicName bv wkb = .error e) :
    (m.insert k v).1
      = .err ("Failed to write cache update: " ++ ("Failed to produce message: " ++ e))
    ∧ (m.insert k v).2 = m
    ∧ ∀ q : K, ((m.insert k v).2).get q = m.get q := by
  have hw : m.replicaWriter.writeUpdate m.keyCodec m.valueCodec m.name k v
      = .err ("Failed to produce message: " ++ e) := by
    unfold ReplicaWriter.writeUpdate WrappedKey.new
    simp [hek, hwk, hev, hpub]
  refine ⟨?_, ?_, ?_⟩ <;> simp [ReplicatedMap.insert, hw]

theorem c2_insert_error_atomicity_witness :
    (mFail.insert 5 7).1
      = .err ("Failed to write cache update: " ++ ("Failed to produce message: " ++ "send failed"))
    ∧ (mFail.insert 5 7).2 = mFail
    ∧ (mFail.insert 5 7).2.get 5 = mFail.get 5 :=
  have h := c2_insert_error_atomicity mFail 5 7 [5] [7, 5] [7] "send failed" rfl rfl rfl rfl
  ⟨h.1, h.2.1, h.2.2 5⟩

/-- C7 (code bug): when the user-key encoding fails, `insert` does not
return a `SerializationError` as the spec states: `WrappedKey::new` calls
`serde_cbor::to_vec(key).unwrap()` (marked `TODO: error handling`), so
the process panics.  The theorem evaluates the code at a failing input:
the outcome is the panic, not an `err`. -/
theorem c7_unencodable_key_panics_instead_of_erroring :
    mBad.insert 0 1
      = (.fatal "serde_cbor::to_vec(key) failed in WrappedKey::new", mBad)
    ∧ (mBad.insert 0 1).2.get 0 = none := by
  constructor <;> rfl

/-- C8: `ReplicatedMap::receive_update` on any `Delete { key }` update
returns the `Delete not implemented` error and leaves the map exactly as
it was: no key is removed and no entry is modified. -/
theorem c8_delete_update_fails_and_leaves_map_unchanged
    {K V : Type} [DecidableEq K] (m : ReplicatedMap K V) (key : Bytes) :
    m.receiveUpdate (.delete key) = (.error "Delete not implemented", m)
    ∧ ∀ q : K, (m.receiveUpdate (.delete key)).2.get q = m.get q := by
  constructor
  · rfl
  · intro q
    rfl

/-- Events that are not records leave the per-key state of the consuming
loop untouched, whether or not the loop breaks on them. -/
theorem consumeLoop_state_of_eof_only (decodeKey : Bytes → Option WrappedKey)
    (numPartitions : Nat) (ps : List Int) :
    ∀ (eofSet : List Int) (state : List (WrappedKey × Option Bytes)) (c : Nat),
      (consumeLoop decodeKey numPartitions eofSet state c
        (ps.map StreamEvent.partitionEOF)).state = state := by
  induction ps with
  | nil => intro eofSet state c; rfl
  | cons p t ih =>
    intro eofSet state c
    simp only [List.map_cons, consumeLoop, processEvent]
    by_cases h : (setInsert eofSet p).length = numPartitions
    · simp [h]
    · simp [h, ih]

/-- C3: bootstrap is last-write-per-key.  For a log whose records are
`(k, v1)`, `(k, v2)`, `(k', w)` in that order followed by the EOF markers
of every partition, `load_state` delivers exactly the updates
`k := v2` and `k' := w` to the receiver: of the records for `k` only the
latest survives, and `v1` is not delivered. -/
theorem c3_bootstrap_applies_last_write_per_key
    (decodeKey : Bytes → Option WrappedKey) (P : List Int)
    (kb1 kb2 : Bytes) (k1 k2 : WrappedKey) (v1 v2 w : Bytes)
    (h1 : decodeKey kb1 = some k1) (h2 : decodeKey kb2 = some k2)
    (hne : k1 ≠ k2) (hP : P ≠ []) :
    loadState decodeKey (some P)
      ([.record (some kb1) (some v1), .record (some kb1) (some v2),
        .record (some kb2) (some w)] ++ P.map StreamEvent.partitionEOF)
      = [(k1.cacheName, .set k1.serializedKey v2),
         (k2.cacheName, .set k2.serializedKey w)] := by
  have hlen : 0 ≠ P.length := by
    intro h
    exact hP (List.length_eq_zero.mp h.symm)
  have hne21 : ¬ k1 = k2 := hne
  unfold loadState lastMessagePerKey
  simp only [List.cons_append, List.nil_append, consumeLoop, processEvent,
    parseMessageKey, h1, h2]
  rw [if_neg (by simpa using hlen), if_neg (by simpa using hlen),
    if_neg (by simpa using hlen)]
  have hstate : hmInsert (hmInsert (hmInsert
      ([] : List (WrappedKey × Option Bytes)) k1 (some v1)) k1 (some v2)) k2 (some w)
      = [(k1, some v2), (k2, some w)] := by
    simp [hmInsert, hne21]
  rw [hstate]
  simp only [List.append_eq, List.nil_append]
  rw [consumeLoop_state_of_eof_only]
  rfl

theorem c3_bootstrap_applies_last_write_per_key_witness :
    decMetrics [1] = some ⟨"metrics", [1]⟩
    ∧ decMetrics [2] = some ⟨"metrics", [2]⟩
    ∧ (⟨"metrics", [1]⟩ : WrappedKey) ≠ ⟨"metrics", [2]⟩
    ∧ ([0] : List Int) ≠ []
    ∧ loadState decMetrics (some [0])
        ([.record (some [1]) (some [9]), .record (some [1]) (some [8]),
          .record (some [2]) (some [7])] ++ ([0] : List Int).map StreamEvent.partitionEOF)
        = [("metrics", .set [1] [8]), ("metrics", .set [2] [7])] :=
  ⟨rfl, rfl, by decide, by decide,
    c3_bootstrap_applies_last_write_per_key decMetrics [0] [1] [2]
      ⟨"metrics", [1]⟩ ⟨"metrics", [2]⟩ [9] [8] [7] rfl rfl (by decide) (by decide)⟩

/-- The raw key bytes of the update built for a state entry are the
entry's serialized user key, for `Set` and `Delete` alike. -/
theorem updKeyBytes_mkUpdate (wk : WrappedKey) (p : Option Bytes) :
    updKeyBytes (mkUpdate wk p) = wk.serializedKey := by
  cases p <;> rfl

/-- Two wrapped keys are equal exactly when both components agree. -/
theorem WrappedKey.eq_iff (w wk : WrappedKey) :
    w = wk ↔ (w.cacheName = wk.cacheName ∧ w.serializedKey = wk.serializedKey) := by
  cases w
  cases wk
  simp

/-- A key absent from the state receives no update from the emission
sequence built over that state. -/
theorem updatesFor_map_of_not_mem (st : List (WrappedKey × Option Bytes))
    (wk : WrappedKey) (h : wk ∉ hmKeys st) :
    updatesFor (st.map (fun entry => (entry.1.cacheName, mkUpdate entry.1 entry.2))) wk
      = [] := by
  induction st with
  | nil => rfl
  | cons e t ih =>
    obtain ⟨w, p⟩ := e
    simp only [hmKeys, List.map_cons, List.mem_cons] at h
    push_neg at h
    have hcond : ¬ (w.cacheName = wk.cacheName
        ∧ updKeyBytes (mkUpdate w p) = wk.serializedKey) := by
      rw [updKeyBytes_mkUpdate]
      intro hc
      exact h.1 (((WrappedKey.eq_iff w wk).mpr hc).symm)
    simp only [List.map_cons, updatesFor, List.filterMap_cons, if_neg hcond]
    exact ih (fun hmem => h.2 hmem)

/-- Over a state with pairwise distinct keys, the emission sequence built
by `load_state` delivers for a given wrapped key exactly the update of
that key's state entry, or nothing when the key is absent. -/
theorem updatesFor_map_emit (st : List (WrappedKey × Option Bytes)) (wk : WrappedKey)
    (h : (hmKeys st).Nodup) :
    updatesFor (st.map (fun entry => (entry.1.cacheName, mkUpdate entry.1 entry.2))) wk
      = match hmLookup st wk with
        | some p => [mkUpdate wk p]
        | none => [] := by
  induction st with
  | nil => rfl
  | cons e t ih =>
    obtain ⟨w, p⟩ := e
    simp only [hmKeys, List.map_cons, List.nodup_cons] at h
    by_cases hw : w = wk
    · subst hw
      have hhead : updatesFor
          (((w, p) :: t).map (fun entry => (entry.1.cacheName, mkUpdate entry.1 entry.2))) w
          = mkUpdate w p :: updatesFor
              (t.map (fun entry => (entry.1.cacheName, mkUpdate entry.1 entry.2))) w := by
        simp [List.map_cons, updatesFor, List.filterMap_cons, updKeyBytes_mkUpdate]
      have hlk : hmLookup ((w, p) :: t) w = some p := by
        simp [hmLookup]
      rw [hhead, updatesFor_map_of_not_mem t w h.1, hlk]
    · have hcond : ¬ (w.cacheName = wk.cacheName
          ∧ updKeyBytes (mkUpdate w p) = wk.serializedKey) := by
        rw [updKeyBytes_mkUpdate]
        intro hc
        exact hw ((WrappedKey.eq_iff w wk).mpr hc)
      have hhead : updatesFor
          (((w, p) :: t).map (fun entry => (entry.1.cacheName, mkUpdate entry.1 entry.2))) wk
          = updatesFor
              (t.map (fun entry => (entry.1.cacheName, mkUpdate entry.1 entry.2))) wk := by
        simp only [List.map_cons, updatesFor, List.filterMap_cons, if_neg hcond]
      have hlk : hmLookup ((w, p) :: t) wk = hmLookup t wk := by
        simp [hmLookup, hw]
      rw [hhead, hlk]
      exact ih h.2

/-- Consuming a run of well-formed records folds them into the state one
by one; the break cannot fire because the EOF set stays empty and the
partition count is positive. -/
theorem consumeLoop_records (decodeKey : Bytes → Option WrappedKey)
    (kb : WrappedKey → Bytes) (n : Nat) (hn : n ≠ 0) :
    ∀ (recs : List (WrappedKey × Option Bytes)),
      (∀ r ∈ recs, decodeKey (kb r.1) = some r.1) →
      ∀ (st : List (WrappedKey × Option Bytes)) (c : Nat) (rest : List StreamEvent),
        consumeLoop decodeKey n [] st c
          (recs.map (fun r => StreamEvent.record (some (kb r.1)) r.2) ++ rest)
        = consumeLoop decodeKey n []
            (recs.foldl (fun s r => hmInsert s r.1 r.2) st) (c + recs.length) rest := by
  intro recs
  induction recs with
  | nil =>
    intro _ st c rest
    rfl
  | cons r t ih =>
    intro hdec st c rest
    have hr := hdec r (List.mem_cons_self r t)
    have hnil : ¬ (([] : List Int).length = n) := by
      simp only [List.length_nil]
      exact fun h => hn h.symm
    simp only [List.map_cons, List.cons_append, consumeLoop, processEvent,
      parseMessageKey, hr, if_neg hnil, List.foldl_cons, List.length_cons]
    rw [show c + (t.length + 1) = c + 1 + t.length by omega]
    exact ih (fun q hq => hdec q (List.mem_cons_of_mem r hq)) (hmInsert st r.1 r.2)
      (c + 1) rest

/-- C4 counterexample: a log holding two records for the same key (then
EOF on the only partition) makes `load_state` emit a single update — the
latest one — so no update corresponding to the earlier, overwritten
record `(k, [9])` is delivered, contradicting one-update-per-record. -/
theorem c4_counterexample_single_update_for_two_records :
    loadState decMetrics (some [0])
      [.record (some [1]) (some [9]), .record (some [1]) (some [8]),
       .partitionEOF 0]
      = [("metrics", .set [1] [8])]
    ∧ ("metrics", ReplicaCacheUpdate.set [1] [9]) ∉ loadState decMetrics (some [0])
        [.record (some [1]) (some [9]), .record (some [1]) (some [8]),
         .partitionEOF 0] := by
  decide

/-- C4 as amended: during bootstrap `load_state` emits one update per
distinct wrapped key of the well-formed records — carrying the latest
record's payload for that key (`Set` when present, `Delete` when absent)
— and none for a key that never occurs; earlier overwritten records are
not delivered. -/
theorem c4_one_update_per_distinct_key
    (decodeKey : Bytes → Option WrappedKey) (kb : WrappedKey → Bytes)
    (P : List Int) (recs : List (WrappedKey × Option Bytes))
    (hdec : ∀ r ∈ recs, decodeKey (kb r.1) = some r.1) (hP : P ≠ []) :
    ∀ wk, updatesFor (loadState decodeKey (some P)
        (recs.map (fun r => StreamEvent.record (some (kb r.1)) r.2)
          ++ P.map StreamEvent.partitionEOF)) wk
      = ((lastVal recs wk).map (mkUpdate wk)).toList := by
  intro wk
  have hn : P.length ≠ 0 := fun h => hP (List.length_eq_zero.mp h)
  have hlm : lastMessagePerKey decodeKey (some P)
      (recs.map (fun r => StreamEvent.record (some (kb r.1)) r.2)
        ++ P.map StreamEvent.partitionEOF)
      = (consumeLoop decodeKey P.length [] [] 0
          (recs.map (fun r => StreamEvent.record (some (kb r.1)) r.2)
            ++ P.map StreamEvent.partitionEOF)).state := rfl
  unfold loadState
  rw [hlm]
  rw [consumeLoop_records decodeKey kb P.length hn recs hdec []
    0 (P.map StreamEvent.partitionEOF)]
  rw [consumeLoop_state_of_eof_only]
  rw [updatesFor_map_emit _ wk
    (hmKeys_nodup_foldl_hmInsert recs [] (by simp [hmKeys]))]
  rw [hmLookup_foldl_hmInsert]
  rcases lastVal recs wk with _ | p <;> rfl

theorem c4_one_update_per_distinct_key_witness :
    (∀ r ∈ recsC, decMetrics (kbC r.1) = some r.1)
    ∧ ([0] : List Int) ≠ []
    ∧ updatesFor (loadState decMetrics (some [0])
        (recsC.map (fun r => StreamEvent.record (some (kbC r.1)) r.2)
          ++ ([0] : List Int).map StreamEvent.partitionEOF)) ⟨"metrics", [1]⟩
      = [ReplicaCacheUpdate.set [1] [8]] :=
  ⟨by decide, by decide,
    (c4_one_update_per_distinct_key decMetrics kbC [0] recsC (by decide) (by decide)
      ⟨"metrics", [1]⟩).trans (by decide)⟩

/-- The EOF-set component of one loop iteration is `eofStep`: records and
errors leave it alone, an EOF marker inserts its partition. -/
theorem processEvent_fst (decodeKey : Bytes → Option WrappedKey)
    (eofSet : List Int) (state : List (WrappedKey × Option Bytes)) (e : StreamEvent) :
    (processEvent decodeKey eofSet state e).1 = eofStep eofSet e := by
  cases e with
  | record key payload =>
    simp only [processEvent, eofStep]
    rcases parseMessageKey decodeKey key with _ | wk <;> rfl
  | partitionEOF p => rfl
  | kafkaError => rfl
  | recvError => rfl

theorem setInsert_nodup (s : List Int) (p : Int) (h : s.Nodup) :
    (setInsert s p).Nodup := by
  unfold setInsert
  by_cases hp : p ∈ s
  · simpa [hp]
  · simp [hp, List.nodup_append, h]

theorem mem_setInsert (s : List Int) (p x : Int) :
    x ∈ setInsert s p ↔ x ∈ s ∨ x = p := by
  unfold setInsert
  by_cases hp : p ∈ s
  · rw [if_pos hp]
    constructor
    · exact fun hx => Or.inl hx
    · rintro (hx | rfl)
      · exact hx
      · exact hp
  · rw [if_neg hp]
    simp [List.mem_append]

theorem eofFoldFrom_cons (s : List Int) (e : StreamEvent) (l : List StreamEvent) :
    eofFoldFrom s (e :: l) = eofFoldFrom (eofStep s e) l := rfl

theorem eofFoldFrom_nodup (l : List StreamEvent) :
    ∀ s : List Int, s.Nodup → (eofFoldFrom s l).Nodup := by
  induction l with
  | nil => exact fun _ h => h
  | cons e t ih =>
    intro s h
    rw [eofFoldFrom_cons]
    apply ih
    cases e with
    | partitionEOF p => exact setInsert_nodup s p h
    | record key payload => exact h
    | kafkaError => exact h
    | recvError => exact h

theorem mem_eofFoldFrom (l : List StreamEvent) :
    ∀ (s : List Int) (x : Int),
      x ∈ eofFoldFrom s l → x ∈ s ∨ StreamEvent.partitionEOF x ∈ l := by
  induction l with
  | nil => exact fun _ x hx => Or.inl hx
  | cons e t ih =>
    intro s x hx
    rw [eofFoldFrom_cons] at hx
    rcases ih (eofStep s e) x hx with hs | hl
    · cases e with
      | partitionEOF p =>
        rcases (mem_setInsert s p x).1 hs with h1 | h2
        · exact Or.inl h1
        · subst h2
          exact Or.inr (List.mem_cons_self _ _)
      | record key payload => exact Or.inl hs
      | kafkaError => exact Or.inl hs
      | recvError => exact Or.inl hs
    · exact Or.inr (List.mem_cons_of_mem e hl)

/-- Two duplicate-free lists of equal length, one contained in the other,
have the same elements. -/
theorem nodup_subset_length_eq {l P : List Int} (hl : l.Nodup) (hP : P.Nodup)
    (hsub : ∀ x, x ∈ l → x ∈ P) (hlen : l.length = P.length) :
    ∀ x, x ∈ l ↔ x ∈ P := by
  have hfin : l.toFinset = P.toFinset := by
    apply Finset.eq_of_subset_of_card_le
    · intro x hx
      rw [List.mem_toFinset] at hx ⊢
      exact hsub x hx
    · rw [List.toFinset_card_of_nodup hl, List.toFinset_card_of_nodup hP, hlen]
  intro x
  rw [← List.mem_toFinset, hfin, List.mem_toFinset]

/-- The consuming loop breaks exactly at the first stream position whose
EOF set (as accumulated from the initial set) has as many elements as the
topic has partitions; when it never breaks, no position qualifies. -/
theorem consumeLoop_break_characterization (decodeKey : Bytes → Option WrappedKey)
    (n : Nat) :
    ∀ (events : List StreamEvent) (s0 : List Int)
      (st0 : List (WrappedKey × Option Bytes)) (c0 : Nat),
      ((consumeLoop decodeKey n s0 st0 c0 events).broke = true →
        ∃ i, 1 ≤ i ∧ i ≤ events.length
          ∧ (consumeLoop decodeKey n s0 st0 c0 events).consumed = c0 + i
          ∧ (consumeLoop decodeKey n s0 st0 c0 events).eofSet
              = eofFoldFrom s0 (events.take i)
          ∧ (eofFoldFrom s0 (events.take i)).length = n
          ∧ ∀ j, 1 ≤ j → j < i → (eofFoldFrom s0 (events.take j)).length ≠ n)
      ∧ ((consumeLoop decodeKey n s0 st0 c0 events).broke = false →
          ∀ j, 1 ≤ j → j ≤ events.length →
            (eofFoldFrom s0 (events.take j)).length ≠ n) := by
  intro events
  induction events with
  | nil =>
    intro s0 st0 c0
    constructor
    · intro hb
      simp [consumeLoop] at hb
    · intro _ j h1 h2
      rw [List.length_nil] at h2
      omega
  | cons e rest ih =>
    intro s0 st0 c0
    have hstep : (processEvent decodeKey s0 st0 e).1 = eofStep s0 e :=
      processEvent_fst decodeKey s0 st0 e
    have htake1 : eofFoldFrom s0 ((e :: rest).take 1) = eofStep s0 e := rfl
    have htakeS : ∀ j : Nat, eofFoldFrom s0 ((e :: rest).take (j + 1))
        = eofFoldFrom (eofStep s0 e) (rest.take j) := fun _ => rfl
    by_cases hbrk : (eofStep s0 e).length = n
    · have hloop : consumeLoop decodeKey n s0 st0 c0 (e :: rest)
          = ⟨(processEvent decodeKey s0 st0 e).1,
             (processEvent decodeKey s0 st0 e).2, c0 + 1, true⟩ := by
        simp only [consumeLoop]
        rw [if_pos (by rw [hstep]; exact hbrk)]
      constructor
      · intro _
        refine ⟨1, le_refl 1, Nat.succ_le_succ (Nat.zero_le _), ?_, ?_, ?_, ?_⟩
        · rw [hloop]
        · rw [hloop, htake1, hstep]
        · rw [htake1]
          exact hbrk
        · intro j h1 h2
          omega
      · intro hb
        rw [hloop] at hb
        simp at hb
    · have hloop : consumeLoop decodeKey n s0 st0 c0 (e :: rest)
          = consumeLoop decodeKey n (eofStep s0 e)
              (processEvent decodeKey s0 st0 e).2 (c0 + 1) rest := by
        simp only [consumeLoop]
        rw [if_neg (by rw [hstep]; exact hbrk), hstep]
      have ihr := ih (eofStep s0 e) (processEvent decodeKey s0 st0 e).2 (c0 + 1)
      constructor
      · intro hb
        rw [hloop] at hb
        obtain ⟨i, hi1, hi2, hcons, heq, hlen, hmin⟩ := ihr.1 hb
        refine ⟨i + 1, by omega, ?_, ?_, ?_, ?_, ?_⟩
        · rw [List.length_cons]
          omega
        · rw [hloop, hcons]
          omega
        · rw [hloop, heq, htakeS i]
        · rw [htakeS i]
          exact hlen
        · intro j h1 h2
          rcases j with _ | j'
          · omega
          · by_cases hj : j' = 0
            · subst hj
              rw [htake1]
              exact hbrk
            · rw [htakeS j']
              exact hmin j' (by omega) (by omega)
      · intro hb
        rw [hloop] at hb
        have hrest := ihr.2 hb
        intro j h1 h2
        rcases j with _ | j'
        · omega
        · by_cases hj : j' = 0
          · subst hj
            rw [htake1]
            exact hbrk
          · rw [List.length_cons] at h2
            rw [htakeS j']
            exact hrest j' (by omega) (by omega)

/-- C5: the bootstrap loop returns through its break only once the set of
partitions that emitted an EOF marker equals the partition set `P` of the
replication topic — never before every partition has emitted one — and it
stops at the first stream position where that holds; if the stream were
exhausted without breaking, no position had a full EOF set. -/
theorem c5_bootstrap_stops_exactly_at_full_eof_set
    (decodeKey : Bytes → Option WrappedKey) (P : List Int)
    (events : List StreamEvent) (hnd : P.Nodup)
    (hsub : ∀ p : Int, StreamEvent.partitionEOF p ∈ events → p ∈ P) :
    ((consumeLoop decodeKey P.length [] [] 0 events).broke = true →
      (∀ p : Int, p ∈ eofIds
          (events.take (consumeLoop decodeKey P.length [] [] 0 events).consumed)
        ↔ p ∈ P)
      ∧ ∀ j, 1 ≤ j → j < (consumeLoop decodeKey P.length [] [] 0 events).consumed →
          (eofIds (events.take j)).length ≠ P.length)
    ∧ ((consumeLoop decodeKey P.length [] [] 0 events).broke = false →
      ∀ j, 1 ≤ j → j ≤ events.length →
        (eofIds (events.take j)).length ≠ P.length) := by
  have hchar := consumeLoop_break_characterization decodeKey P.length events [] [] 0
  constructor
  · intro hb
    obtain ⟨i, hi1, hi2, hcons, heq, hlen, hmin⟩ := hchar.1 hb
    constructor
    · have hconsi : (consumeLoop decodeKey P.length [] [] 0 events).consumed = i := by
        omega
      rw [hconsi]
      have hnodup : (eofIds (events.take i)).Nodup :=
        eofFoldFrom_nodup (events.take i) [] List.nodup_nil
      have hsubl : ∀ x, x ∈ eofIds (events.take i) → x ∈ P := by
        intro x hx
        rcases mem_eofFoldFrom (events.take i) [] x hx with hmem | hev
        · exact absurd hmem (List.not_mem_nil x)
        · exact hsub x (List.take_subset i events hev)
      exact nodup_subset_length_eq hnodup hnd hsubl hlen
    · intro j h1 h2
      exact hmin j h1 (by omega)
  · intro hb
    exact hchar.2 hb

/-- A concrete stream for the bootstrap-completion witness: one record,
the EOF markers of both partitions, then a stream error that is never
consumed. -/
def eventsC5 : List StreamEvent :=
  [.record (some [1]) (some [2]), .partitionEOF 0, .partitionEOF 1, .kafkaError]

theorem c5_bootstrap_stops_exactly_at_full_eof_set_witness :
    ([0, 1] : List Int).Nodup
    ∧ (consumeLoop decMetrics 2 [] [] 0 eventsC5).broke = true
    ∧ ((1 : Int) ∈ eofIds
          (eventsC5.take (consumeLoop decMetrics 2 [] [] 0 eventsC5).consumed)
        ↔ (1 : Int) ∈ ([0, 1] : List Int)) :=
  ⟨by decide, by decide,
    ((c5_bootstrap_stops_exactly_at_full_eof_set decMetrics [0, 1] eventsC5
      (by decide)
      (by
        intro p hp
        simp only [eventsC5, List.mem_cons, List.not_mem_nil, or_false] at hp
        rcases hp with h | h | h | h
        · simp at h
        · simp at h
          simp [h]
        · simp at h
          simp [h]
        · simp at h)).1 (by decide)).1 1⟩

theorem cacheDispatch_metrics (c : Cache) (u : ReplicaCacheUpdate) :
    c.receiveUpdate "metrics" u
      = (.ok (), { c with metrics := (c.metrics.receiveUpdate u).2 }) := by
  unfold Cache.receiveUpdate
  rw [if_pos rfl]

theorem cacheDispatch_offsets (c : Cache) (u : ReplicaCacheUpdate) :
    c.receiveUpdate "offsets" u
      = (.ok (), { c with offsets := (c.offsets.receiveUpdate u).2 }) := by
  unfold Cache.receiveUpdate
  rw [if_neg (by decide), if_pos rfl]

theorem cacheDispatch_brokers (c : Cache) (u : ReplicaCacheUpdate) :
    c.receiveUpdate "brokers" u
      = (.ok (), { c with brokers := (c.brokers.receiveUpdate u).2 }) := by
  unfold Cache.receiveUpdate
  rw [if_neg (by decide), if_neg (by decide), if_pos rfl]

theorem cacheDispatch_topics (c : Cache) (u : ReplicaCacheUpdate) :
    c.receiveUpdate "topics" u
      = (.ok (), { c with topics := (c.topics.receiveUpdate u).2 }) := by
  unfold Cache.receiveUpdate
  rw [if_neg (by decide), if_neg (by decide), if_neg (by decide), if_pos rfl]

theorem cacheDispatch_groups (c : Cache) (u : ReplicaCacheUpdate) :
    c.receiveUpdate "groups" u
      = (.ok (), { c with groups := (c.groups.receiveUpdate u).2 }) := by
  unfold Cache.receiveUpdate
  rw [if_neg (by decide), if_neg (by decide), if_neg (by decide),
    if_neg (by decide), if_pos rfl]

theorem cacheDispatch_unknown (c : Cache) (n : String) (u : ReplicaCacheUpdate)
    (h1 : n ≠ "metrics") (h2 : n ≠ "offsets") (h3 : n ≠ "brokers")
    (h4 : n ≠ "topics") (h5 : n ≠ "groups") :
    c.receiveUpdate n u = (.error ("Unknown cache name: " ++ n), c) := by
  unfold Cache.receiveUpdate
  rw [if_neg h1, if_neg h2, if_neg h3, if_neg h4, if_neg h5]

/-- C6: the aggregate's `receive_update(n, u)` forwards `u` to the
metrics map exactly when `n = "metrics"` (and likewise for the other four
literal names): for that name the selected map is replaced by its own
`receive_update` result and the others stay untouched, for any other name
the map stays untouched, and the unknown-cache-name error is returned
exactly when `n` is none of the five names. -/
theorem c6_dispatch_by_cache_name (c : Cache) (n : String) (u : ReplicaCacheUpdate) :
    (n = "metrics" → c.receiveUpdate n u
      = (.ok (), { c with metrics := (c.metrics.receiveUpdate u).2 }))
    ∧ (n = "offsets" → c.receiveUpdate n u
      = (.ok (), { c with offsets := (c.offsets.receiveUpdate u).2 }))
    ∧ (n = "brokers" → c.receiveUpdate n u
      = (.ok (), { c with brokers := (c.brokers.receiveUpdate u).2 }))
    ∧ (n = "topics" → c.receiveUpdate n u
      = (.ok (), { c with topics := (c.topics.receiveUpdate u).2 }))
    ∧ (n = "groups" → c.receiveUpdate n u
      = (.ok (), { c with groups := (c.groups.receiveUpdate u).2 }))
    ∧ (n ≠ "metrics" → (c.receiveUpdate n u).2.metrics = c.metrics)
    ∧ (n ≠ "offsets" → (c.receiveUpdate n u).2.offsets = c.offsets)
    ∧ (n ≠ "brokers" → (c.receiveUpdate n u).2.brokers = c.brokers)
    ∧ (n ≠ "topics" → (c.receiveUpdate n u).2.topics = c.topics)
    ∧ (n ≠ "groups" → (c.receiveUpdate n u).2.groups = c.groups)
    ∧ ((c.receiveUpdate n u).1 = .error ("Unknown cache name: " ++ n)
      ↔ n ∉ (["metrics", "offsets", "brokers", "topics", "groups"] : List String)) := by
  have hcase : ∀ motive : (Except String Unit × Cache) → Prop,
      (n = "metrics" → motive (.ok (), { c with metrics := (c.metrics.receiveUpdate u).2 })) →
      (n = "offsets" → motive (.ok (), { c with offsets := (c.offsets.receiveUpdate u).2 })) →
      (n = "brokers" → motive (.ok (), { c with brokers := (c.brokers.receiveUpdate u).2 })) →
      (n = "topics" → motive (.ok (), { c with topics := (c.topics.receiveUpdate u).2 })) →
      (n = "groups" → motive (.ok (), { c with groups := (c.groups.receiveUpdate u).2 })) →
      (n ≠ "metrics" → n ≠ "offsets" → n ≠ "brokers" → n ≠ "topics" → n ≠ "groups" →
        motive (.error ("Unknown cache name: " ++ n), c)) →
      motive (c.receiveUpdate n u) := by
    intro motive hm ho hb ht hg hu
    by_cases h1 : n = "metrics"
    · subst h1
      rw [cacheDispatch_metrics]
      exact hm rfl
    · by_cases h2 : n = "offsets"
      · subst h2
        rw [cacheDispatch_offsets]
        exact ho rfl
      · by_cases h3 : n = "brokers"
        · subst h3
          rw [cacheDispatch_brokers]
          exact hb rfl
        · by_cases h4 : n = "topics"
          · subst h4
            rw [cacheDispatch_topics]
            exact ht rfl
          · by_cases h5 : n = "groups"
            · subst h5
              rw [cacheDispatch_groups]
              exact hg rfl
            · rw [cacheDispatch_unknown c n u h1 h2 h3 h4 h5]
              exact hu h1 h2 h3 h4 h5
  refine ⟨?_, ?_, ?_, ?_, ?_, ?_, ?_, ?_, ?_, ?_, ?_⟩
  · intro h
    subst h
    exact cacheDispatch_metrics c u
  · intro h
    subst h
    exact cacheDispatch_offsets c u
  · intro h
    subst h
    exact cacheDispatch_brokers c u
  · intro h
    subst h
    exact cacheDispatch_topics c u
  · intro h
    subst h
    exact cacheDispatch_groups c u
  · intro h
    exact hcase (fun r => r.2.metrics = c.metrics)
      (fun he => absurd he h) (fun _ => rfl) (fun _ => rfl) (fun _ => rfl)
      (fun _ => rfl) (fun _ _ _ _ _ => rfl)
  · intro h
    exact hcase (fun r => r.2.offsets = c.offsets)
      (fun _ => rfl) (fun he => absurd he h) (fun _ => rfl) (fun _ => rfl)
      (fun _ => rfl) (fun _ _ _ _ _ => rfl)
  · intro h
    exact hcase (fun r => r.2.brokers = c.brokers)
      (fun _ => rfl) (fun _ => rfl) (fun he => absurd he h) (fun _ => rfl)
      (fun _ => rfl) (fun _ _ _ _ _ => rfl)
  · intro h
    exact hcase (fun r => r.2.topics = c.topics)
      (fun _ => rfl) (fun _ => rfl) (fun _ => rfl) (fun he => absurd he h)
      (fun _ => rfl) (fun _ _ _ _ _ => rfl)
  · intro h
    exact hcase (fun r => r.2.groups = c.groups)
      (fun _ => rfl) (fun _ => rfl) (fun _ => rfl) (fun _ => rfl)
      (fun he => absurd he h) (fun _ _ _ _ _ => rfl)
  · apply hcase (fun r => r.1 = .error ("Unknown cache name: " ++ n)
      ↔ n ∉ (["metrics", "offsets", "brokers", "topics", "groups"] : List String))
    · intro h
      subst h
      simp
    · intro h
      subst h
      simp
    · intro h
      subst h
      simp
    · intro h
      subst h
      simp
    · intro h
      subst h
      simp
    · intro h1 h2 h3 h4 h5
      simp [h1, h2, h3, h4, h5]

theorem c6_dispatch_by_cache_name_witness :
    c0.receiveUpdate "metrics" (.delete [])
      = (.ok (), { c0 with metrics := (c0.metrics.receiveUpdate (.delete [])).2 })
    ∧ (c0.receiveUpdate "bogus" (.delete [])).2.metrics = c0.metrics
    ∧ ((c0.receiveUpdate "bogus" (.delete [])).1
        = .error ("Unknown cache name: " ++ "bogus")
      ↔ "bogus" ∉ (["metrics", "offsets", "brokers", "topics", "groups"] : List String)) :=
  have hm := c6_dispatch_by_cache_name c0 "metrics" (.delete [])
  have hb := c6_dispatch_by_cache_name c0 "bogus" (.delete [])
  ⟨hm.1 rfl, hb.2.2.2.2.2.1 (by decide), hb.2.2.2.2.2.2.2.2.2.2⟩

/-- C10: for the five known cache names the aggregate's `receive_update`
returns `Ok` no matter what the selected map's own `receive_update`
returned — the inner result is discarded — and only an unknown name makes
the aggregate return an error. -/
theorem c10_known_names_swallow_inner_result (c : Cache) (n : String)
    (u : ReplicaCacheUpdate) :
    (c.receiveUpdate n u).1 = Except.ok ()
      ↔ n ∈ (["metrics", "offsets", "brokers", "topics", "groups"] : List String) := by
  by_cases h1 : n = "metrics"
  · subst h1
    rw [cacheDispatch_metrics]
    simp
  · by_cases h2 : n = "offsets"
    · subst h2
      rw [cacheDispatch_offsets]
      simp
    · by_cases h3 : n = "brokers"
      · subst h3
        rw [cacheDispatch_brokers]
        simp
      · by_cases h4 : n = "topics"
        · subst h4
          rw [cacheDispatch_topics]
          simp
        · by_cases h5 : n = "groups"
          · subst h5
            rw [cacheDispatch_groups]
            simp
          · rw [cacheDispatch_unknown c n u h1 h2 h3 h4 h5]
            simp [h1, h2, h3, h4, h5]

/-- C9 counterexample: on the exact input the claim names — offsets
`(c1, "g1", "t1") -> [100, 200]`, watermarks `Ok((10, 150))` for
partition 0 and failed for partition 1 — the rows are not those the claim
states: partition 1's row carries its own committed offset 200, not 100. -/
theorem c9_counterexample_s4_second_row_offset :
    groupOffsets (some s4Fetch) s4Offsets
      ≠ [("t1", 0, 10, 150, 100, "50"), ("t1", 1, -1, -1, 100, "-1")]
    ∧ groupOffsets (some s4Fetch) s4Offsets
      = [("t1", 0, 10, 150, 100, "50"), ("t1", 1, -1, -1, 200, "-1")] := by
  constructor <;> decide

/-- C9 as amended: a failed or missing watermark query gives a row with
`low = -1`, `high = -1` and lag string `"-1"` whenever `offset ≥ -1`
(the sentinel `low = -1` makes the retention check read `offset + 1`, so
`offset < -1` shows `"Out of retention"`); a successful query `(l, h)`
gives `"Empty topic"` when `h = 0`, `"Out of retention"` when
`offset - l < 0`, and the decimal string of `h - offset` otherwise; and
on the S4 input the rows are
`[("t1", 0, 10, 150, 100, "50"), ("t1", 1, -1, -1, 200, "-1")]`
(partition 1's committed offset is 200). -/
theorem c9_lag_view_row_semantics :
    (∀ (wmEntry : Option (Except String (Int × Int))) (offset : Int),
      ((∀ lh : Int × Int, wmEntry ≠ some (Except.ok lh)) →
        lagRow wmEntry offset
          = (-1, -1, if offset + 1 < 0 then "Out of retention" else "-1"))
      ∧ ∀ l h : Int, wmEntry = some (.ok (l, h)) →
          lagRow wmEntry offset
            = (l, h, if h = 0 then "Empty topic"
                     else if offset - l < 0 then "Out of retention"
                     else toString (h - offset)))
    ∧ groupOffsets (some s4Fetch) s4Offsets
      = [("t1", 0, 10, 150, 100, "50"), ("t1", 1, -1, -1, 200, "-1")] := by
  constructor
  · intro wmEntry offset
    constructor
    · intro hne
      rcases wmEntry with _ | res
      · show ((-1 : Int), (-1 : Int),
            if offset - (-1 : Int) < 0 then "Out of retention" else toString (-1 : Int))
          = ((-1 : Int), (-1 : Int), if offset + 1 < 0 then "Out of retention" else "-1")
        simp only [sub_neg_eq_add]
        by_cases hoff : offset + 1 < 0
        · rw [if_pos hoff, if_pos hoff]
        · rw [if_neg hoff, if_neg hoff]
          decide
      · rcases res with e | lh
        · show ((-1 : Int), (-1 : Int),
              if offset - (-1 : Int) < 0 then "Out of retention" else toString (-1 : Int))
            = ((-1 : Int), (-1 : Int), if offset + 1 < 0 then "Out of retention" else "-1")
          simp only [sub_neg_eq_add]
          by_cases hoff : offset + 1 < 0
          · rw [if_pos hoff, if_pos hoff]
          · rw [if_neg hoff, if_neg hoff]
            decide
        · exact absurd rfl (hne lh)
    · intro l h hm
      subst hm
      rfl
  · decide

theorem c9_lag_view_row_semantics_witness :
    (∀ lh : Int × Int, (none : Option (Except String (Int × Int))) ≠ some (Except.ok lh))
    ∧ lagRow none 100 = (-1, -1, "-1")
    ∧ lagRow (some (.ok (10, 150))) 100 = (10, 150, "50") :=
  ⟨fun _ h => Option.noConfusion h,
    ((c9_lag_view_row_semantics.1 none 100).1 (fun _ h => Option.noConfusion h)).trans
      (by decide),
    ((c9_lag_view_row_semantics.1 (some (.ok (10, 150))) 100).2 10 150 rfl).trans
      (by decide)⟩

end KafkaView
